import Mathlib

set_option maxRecDepth 100000

/-!
Shallow embedding of the Vector11 repository: the ingestion pipeline of
`scripts/loadDb.ts` (quality filter, content-addressed chunk identity,
batch embedding, duplicate-tolerant batch insertion, retry wrapper and
the orchestrator loop), the retrieval assembly of `app/api/chat/route.ts`
and the authorization gate of `app/api/cron/update-db/route.ts`.

External effects (the web scraper, the text splitter library, the
embedding service and the document store) are modelled as explicit
function parameters ("oracles"); everything computed locally by the
repository's own code is translated directly from the TypeScript source.
-/

/-! ## String utilities (JS semantics on the ASCII fragment) -/

/-- Whitespace characters matched by the JavaScript regex `\s` (ASCII part),
used by `text.replace(/\s+/g, " ")` in `loadDb.ts`. -/
def isWsChar (c : Char) : Bool :=
  c = ' ' || c = '\t' || c = '\n' || c = '\r' || c = '\x0b' || c = '\x0c'

/-- Collapse every maximal run of whitespace into a single space, as
`text.replace(/\s+/g, " ")` does. The boolean records whether the previous
character was part of a whitespace run. -/
def collapseWsAux : List Char → Bool → List Char
  | [], _ => []
  | c :: cs, prevWs =>
    if isWsChar c then
      if prevWs then collapseWsAux cs true else ' ' :: collapseWsAux cs true
    else c :: collapseWsAux cs false

/-- Remove leading and trailing whitespace from a character list,
as JavaScript `String.prototype.trim` does. -/
def trimWsList (l : List Char) : List Char :=
  ((l.dropWhile isWsChar).reverse.dropWhile isWsChar).reverse

/-- JavaScript `s.trim()` on strings. -/
def trimWs (s : String) : String :=
  String.mk (trimWsList s.toList)

/-- JavaScript `s.toLowerCase()` (ASCII fragment). -/
def toLowerStr (s : String) : String :=
  String.mk (s.toList.map Char.toLower)

/-- Normalization `text.replace(/\s+/g, " ").trim().toLowerCase()` from
`isLowValueContent` / `isAccessBlockedContent` in `loadDb.ts`. -/
def normalizeText (text : String) : String :=
  String.mk ((trimWsList (collapseWsAux text.toList false)).map Char.toLower)

/-- Does `hay` start with `needle`? -/
def listStartsWith : List Char → List Char → Bool
  | [], _ => true
  | _ :: _, [] => false
  | a :: as, b :: bs => a = b && listStartsWith as bs

/-- Substring test on character lists, modelling JavaScript
`hay.includes(needle)`. -/
def listContainsSub (needle : List Char) : List Char → Bool
  | [] => needle.isEmpty
  | c :: cs => listStartsWith needle (c :: cs) || listContainsSub needle cs

/-- JavaScript `hay.includes(needle)` on strings. -/
def containsSubstr (needle hay : String) : Bool :=
  listContainsSub needle.toList hay.toList

/-- Does `s` end with `suffix`? (JavaScript `s.endsWith(suffix)`.) -/
def strEndsWith (suffix s : String) : Bool :=
  listStartsWith suffix.toList.reverse s.toList.reverse

/-! ## Quality filter (`isLowValueContent` in `loadDb.ts`) -/

/-- The `BOILERPLATE_PATTERNS` list from `loadDb.ts`, verbatim. -/
def BOILERPLATE_PATTERNS : List String :=
  ["skip to content", "sign up", "sign in", "log in", "login", "register",
   "create account", "subscribe", "subscription", "unlock", "premium",
   "paywall", "trial", "try for", "buy now", "get access", "continue reading",
   "advertisement", "ad blocker", "sponsored", "promotion", "promoted",
   "notification", "push notification", "download the app", "get the app",
   "open in app", "cookie", "consent", "manage preferences", "privacy policy",
   "privacy", "terms", "terms of use", "all rights reserved", "copyright",
   "contact us", "about us", "help", "support", "language", "region",
   "edition", "select edition", "choose region", "back to top", "share",
   "print", "follow", "related topics", "related articles",
   "you might also like", "read more", "see more", "load more", "show more",
   "loading", "please wait", "no results", "not found", "oops",
   "we\x27re having trouble", "temporarily unavailable", "live", "update",
   "match centre", "match center", "ft", "ht", "newsletter", "page not found",
   "sorry", "home"]

/-- The statistics-domain keywords of the regex
`/goal|assist|match|team|player|score|stat|table|league|position|points|win|draw|loss/`
in `isLowValueContent`. -/
def STATS_KEYWORDS : List String :=
  ["goal", "assist", "match", "team", "player", "score", "stat", "table",
   "league", "position", "points", "win", "draw", "loss"]

/-- Test `/\d+/.test(normalized)`: the normalized text contains a digit. -/
def hasNumericToken (normalized : String) : Bool :=
  normalized.toList.any (fun c => c.isDigit)

/-- The stats-keyword regex test on the normalized text. -/
def hasStatsKeyword (normalized : String) : Bool :=
  STATS_KEYWORDS.any (fun k => containsSubstr k normalized)

/-- Number of boilerplate patterns occurring in the normalized text
(each pattern counted once, as the `matches` counter does). -/
def boilerplateMatchCount (normalized : String) : Nat :=
  (BOILERPLATE_PATTERNS.filter (fun p => containsSubstr p normalized)).length

/-- Split `normalized.split(" ")` on the already-collapsed text. -/
def splitOnSpace : List Char → List Char → List (List Char)
  | [], acc => [acc.reverse]
  | c :: cs, acc =>
    if c = ' ' then acc.reverse :: splitOnSpace cs []
    else splitOnSpace cs (c :: acc)

/-- Insert a word into the list of distinct words seen so far
(`new Set(words)`). -/
def insertDistinct (w : List Char) (seen : List (List Char)) : List (List Char) :=
  if seen.contains w then seen else w :: seen

/-- Accumulate the distinct members of a word list. -/
def distinctList : List (List Char) → List (List Char) → List (List Char)
  | [], seen => seen
  | w :: ws, seen => distinctList ws (insertDistinct w seen)

/-- Count `new Set(normalized.split(" ").filter(Boolean)).size`. -/
def distinctWordCount (normalized : String) : Nat :=
  (distinctList ((splitOnSpace normalized.toList []).filter
    (fun w => !w.isEmpty)) []).length

/-- The stats-content exception: `hasNumbers && hasStatsKeywords &&
normalized.length >= 100`. -/
def statsException (normalized : String) : Bool :=
  hasNumericToken normalized && hasStatsKeyword normalized
    && decide (100 ≤ normalized.length)

/-- The body of `isLowValueContent`, operating on the normalized text. -/
def isLowValueNormalized (normalized : String) : Bool :=
  if normalized.length = 0 then true
  else if statsException normalized then false
  else if normalized.length < 200 then true
  else if 800 ≤ normalized.length then false
  else if 3 ≤ boilerplateMatchCount normalized then true
  else if distinctWordCount normalized < 30 then true
  else false

/-- Function `isLowValueContent` from `loadDb.ts`: normalize, then apply the
length / stats-exception / boilerplate / lexical-diversity cascade. -/
def isLowValueContent (text : String) : Bool :=
  isLowValueNormalized (normalizeText text)

/-! ## Batch slicing

`loadDb.ts` walks `childTexts` / `parentDocs` in slices
(`for (let b = 0; b < xs.length; b += STEP) xs.slice(b, b + STEP)`). -/

/-- Split a list into consecutive chunks; `cap` counts how many elements
still fit into the chunk being built. -/
def chunkAux (step : Nat) : List α → List α → Nat → List (List α)
  | [], acc, _ => if acc.isEmpty then [] else [acc.reverse]
  | x :: xs, acc, 0 => acc.reverse :: chunkAux step xs [x] (step - 1)
  | x :: xs, acc, Nat.succ k => chunkAux step xs (x :: acc) k

/-- All consecutive slices of size `step` (last one possibly shorter). -/
def chunkList (step : Nat) (l : List α) : List (List α) :=
  match l with
  | [] => []
  | x :: xs => chunkAux step xs [x] (step - 1)

/-- Slices of size `step` paired with their start offsets
`0, step, 2*step, ...` (the loop variable `b`). -/
def chunkStarts (step : Nat) (l : List α) : List (Nat × List α) :=
  (chunkList step l).enum.map (fun p => (p.1 * step, p.2))

/-! ## MD5 (`createHash("md5")` over UTF-8 bytes)

`loadDb.ts` derives every chunk id with node's
`createHash("md5").update(text).digest("hex")`; `update` with a string
encodes it as UTF-8. The algorithm below is RFC 1321 over byte lists. -/

/-- UTF-8 encoding of one character. -/
def charUtf8 (c : Char) : List Nat :=
  let n := c.toNat
  if n < 128 then [n]
  else if n < 2048 then [192 + n / 64, 128 + n % 64]
  else if n < 65536 then
    [224 + n / 4096, 128 + (n / 64) % 64, 128 + n % 64]
  else
    [240 + n / 262144, 128 + (n / 4096) % 64, 128 + (n / 64) % 64, 128 + n % 64]

/-- UTF-8 bytes of a string. -/
def utf8Bytes (s : String) : List Nat :=
  (s.toList.map charUtf8).flatten

/-- Constant 2^32, the word modulus of MD5 arithmetic. -/
def M32 : Nat := 4294967296

/-- Rotate a 32-bit word left by `s` bits. -/
def rotl32 (x s : Nat) : Nat :=
  ((x <<< s) ||| (x >>> (32 - s))) % M32

/-- Little-endian byte expansion of `x` into `n` bytes. -/
def leBytes : Nat → Nat → List Nat
  | 0, _ => []
  | Nat.succ m, x => (x % 256) :: leBytes m (x / 256)

/-- RFC 1321 padding: append `0x80`, zero-fill to 56 mod 64, then the
64-bit little-endian bit length. -/
def md5Pad (msg : List Nat) : List Nat :=
  let r := (msg.length + 1) % 64
  let k := (64 + 56 - r) % 64
  msg ++ [128] ++ List.replicate k 0 ++ leBytes 8 ((msg.length * 8) % (2 ^ 64))

/-- A 4-byte little-endian group as a 32-bit word. -/
def leWord (bs : List Nat) : Nat :=
  match bs with
  | [a, b, c, d] => a + 256 * b + 65536 * c + 16777216 * d
  | _ => 0

/-- The 16 message words of one 64-byte block. -/
def blockWords (block : List Nat) : List Nat :=
  (chunkList 4 block).map leWord

/-- The 64 round constants `K[i] = floor(2^32 * abs(sin(i+1)))`. -/
def md5K : List Nat :=
  [0xd76aa478, 0xe8c7b756, 0x242070db, 0xc1bdceee,
   0xf57c0faf, 0x4787c62a, 0xa8304613, 0xfd469501,
   0x698098d8, 0x8b44f7af, 0xffff5bb1, 0x895cd7be,
   0x6b901122, 0xfd987193, 0xa679438e, 0x49b40821,
   0xf61e2562, 0xc040b340, 0x265e5a51, 0xe9b6c7aa,
   0xd62f105d, 0x02441453, 0xd8a1e681, 0xe7d3fbc8,
   0x21e1cde6, 0xc33707d6, 0xf4d50d87, 0x455a14ed,
   0xa9e3e905, 0xfcefa3f8, 0x676f02d9, 0x8d2a4c8a,
   0xfffa3942, 0x8771f681, 0x6d9d6122, 0xfde5380c,
   0xa4beea44, 0x4bdecfa9, 0xf6bb4b60, 0xbebfbc70,
   0x289b7ec6, 0xeaa127fa, 0xd4ef3085, 0x04881d05,
   0xd9d4d039, 0xe6db99e5, 0x1fa27cf8, 0xc4ac5665,
   0xf4292244, 0x432aff97, 0xab9423a7, 0xfc93a039,
   0x655b59c3, 0x8f0ccc92, 0xffeff47d, 0x85845dd1,
   0x6fa87e4f, 0xfe2ce6e0, 0xa3014314, 0x4e0811a1,
   0xf7537e82, 0xbd3af235, 0x2ad7d2bb, 0xeb86d391]

/-- The per-round left-rotation amounts. -/
def md5S : List Nat :=
  [7, 12, 17, 22, 7, 12, 17, 22, 7, 12, 17, 22, 7, 12, 17, 22,
   5, 9, 14, 20, 5, 9, 14, 20, 5, 9, 14, 20, 5, 9, 14, 20,
   4, 11, 16, 23, 4, 11, 16, 23, 4, 11, 16, 23, 4, 11, 16, 23,
   6, 10, 15, 21, 6, 10, 15, 21, 6, 10, 15, 21, 6, 10, 15, 21]

/-- The round function F/G/H/I selected by the round index. -/
def md5F (i b c d : Nat) : Nat :=
  if i < 16 then (b &&& c) ||| ((b ^^^ 4294967295) &&& d)
  else if i < 32 then (d &&& b) ||| ((d ^^^ 4294967295) &&& c)
  else if i < 48 then b ^^^ c ^^^ d
  else c ^^^ (b ||| (d ^^^ 4294967295))

/-- The message-word index used in round `i`. -/
def md5G (i : Nat) : Nat :=
  if i < 16 then i
  else if i < 32 then (5 * i + 1) % 16
  else if i < 48 then (3 * i + 5) % 16
  else (7 * i) % 16

/-- One MD5 round on the state `(a, b, c, d)`. -/
def md5Round (m : List Nat) (st : Nat × Nat × Nat × Nat) (i : Nat) :
    Nat × Nat × Nat × Nat :=
  let a := st.1
  let b := st.2.1
  let c := st.2.2.1
  let d := st.2.2.2
  let f := (md5F i b c d + a + md5K.getD i 0 + m.getD (md5G i) 0) % M32
  (d, (b + rotl32 f (md5S.getD i 0)) % M32, b, c)

/-- Process one 64-byte block. -/
def md5Block (st : Nat × Nat × Nat × Nat) (block : List Nat) :
    Nat × Nat × Nat × Nat :=
  let m := blockWords block
  let r := (List.range 64).foldl (md5Round m) st
  ((st.1 + r.1) % M32, (st.2.1 + r.2.1) % M32,
   (st.2.2.1 + r.2.2.1) % M32, (st.2.2.2 + r.2.2.2) % M32)

/-- MD5 digest (16 bytes) of a byte list. -/
def md5Bytes (msg : List Nat) : List Nat :=
  let blocks := chunkList 64 (md5Pad msg)
  let r := blocks.foldl md5Block (0x67452301, 0xefcdab89, 0x98badcfe, 0x10325476)
  leBytes 4 r.1 ++ leBytes 4 r.2.1 ++ leBytes 4 r.2.2.1 ++ leBytes 4 r.2.2.2

/-- Lowercase hexadecimal digit. -/
def hexDigit (n : Nat) : Char :=
  "0123456789abcdef".toList.getD n '0'

/-- Two-digit lowercase hex of one byte. -/
def byteHex (b : Nat) : List Char :=
  [hexDigit (b / 16 % 16), hexDigit (b % 16)]

/-- Lowercase hex string of a byte list (`digest("hex")`). -/
def bytesToHex (bs : List Nat) : String :=
  String.mk ((bs.map byteHex).flatten)

/-- Digest `createHash("md5").update(s).digest("hex")` for a string `s`. -/
def md5Hex (s : String) : String :=
  bytesToHex (md5Bytes (utf8Bytes s))

/-! ## Store records (the document shapes inserted by `loadDb.ts`) -/

/-- A parent document (`ParentRecord` in `loadDb.ts`); no vector. -/
structure ParentRecord where
  _id : String
  content : String
  source : String
  url : String
  category : String
  scrapedAt : String
  type : String
  deriving DecidableEq, Repr

/-- A child document (`ChildRecord` in `loadDb.ts`); the `$vector` field is
optional because the code reads `allVectors[globalIdx]`, which may be
absent. Vector entries are abstract numbers. -/
structure ChildRecord where
  _id : String
  content : String
  parentId : String
  source : String
  url : String
  category : String
  scrapedAt : String
  type : String
  vector : Option (List Int)
  deriving DecidableEq, Repr

/-- Build one parent document: `_id` is the md5 hex of the chunk text. -/
def parentRecordOf (source url category scrapedAt chunk : String) : ParentRecord :=
  { _id := md5Hex chunk, content := chunk, source := source, url := url,
    category := category, scrapedAt := scrapedAt, type := "parent" }

/-- Build one child document: `_id` is the md5 hex of
`parentId + "|" + chunk`. -/
def childRecordOf (source url category scrapedAt pid chunk : String)
    (vec : Option (List Int)) : ChildRecord :=
  { _id := md5Hex (pid ++ "|" ++ chunk), content := chunk, parentId := pid,
    source := source, url := url, category := category,
    scrapedAt := scrapedAt, type := "child", vector := vec }

/-- The child-chunk filter applied inside the parent loop:
`c.trim().length >= 80 && !isLowValueContent(c)`. -/
def childChunkFilter (c : String) : Bool :=
  decide (80 ≤ (trimWs c).length) && !isLowValueContent c

/-- The parent-chunk filter:
`chunk.trim().length >= 120 && !isLowValueContent(chunk)`. -/
def parentChunkFilter (c : String) : Bool :=
  decide (120 ≤ (trimWs c).length) && !isLowValueContent c

/-- The per-parent loop of `loadDb.ts` (lines 1099–1119): for each filtered
parent chunk, push the parent document and the filtered child texts, each
child remembering its parent's id. Returns
`(parentDocs, childTexts, childParentIds)` with `childParentIds[i]` the
`parentId` recorded in `childMeta[i]`. -/
def buildDocs (source url category scrapedAt : String)
    (childSplit : String → List String) :
    List String → List ParentRecord × List String × List String
  | [] => ([], [], [])
  | p :: ps =>
    let pid := md5Hex p
    let children := (childSplit p).filter childChunkFilter
    let rest := buildDocs source url category scrapedAt childSplit ps
    (parentRecordOf source url category scrapedAt p :: rest.1,
     children ++ rest.2.1,
     children.map (fun _ => pid) ++ rest.2.2)

/-- The child documents built in the child-insert loop (lines 1178–1197),
indexed so that document `i` receives `allVectors[i]`. -/
def buildChildDocs (source url category scrapedAt : String)
    (vectors : List (List Int)) :
    List String → List String → Nat → List ChildRecord
  | c :: cs, pid :: pids, i =>
    childRecordOf source url category scrapedAt pid c (vectors.get? i) ::
      buildChildDocs source url category scrapedAt vectors cs pids (i + 1)
  | _, _, _ => []

/-! ## Embedding and insertion stages (with store / service oracles) -/

/-- Events recording which external batch calls a URL's pipeline issued,
in order. -/
inductive Event where
  | embedBatch (start : Nat)
  | insertParentBatch (start : Nat)
  | insertChildBatch (start : Nat)
  deriving DecidableEq, Repr

/-- Outcome of one embedding-service batch call, after the retry wrapper:
either the vectors plus token usage, or the error finally thrown. -/
inductive EmbedResult where
  | ok (vectors : List (List Int)) (tokens : Nat)
  | err (msg : String)
  deriving DecidableEq, Repr

/-- Outcome of one `collection.insertMany` batch call: either the inserted
count, or an error carrying the message and the optional
`partialResult.insertedCount`. -/
inductive InsertResult where
  | ok (insertedCount : Nat)
  | err (msg : String) (insertedCount : Option Nat)
  deriving DecidableEq, Repr

/-- The duplicate-error sniff of `loadDb.ts`:
`msg.includes("already exists") || msg.includes("duplicate")`. -/
def isDuplicateMsg (msg : String) : Bool :=
  containsSubstr "already exists" msg || containsSubstr "duplicate" msg

/-- The embedding loop (lines 1130–1151): process each batch in order,
accumulating vectors, tokens and events; stop at the first batch whose
retries are exhausted, returning its error. -/
def runEmbedStage (embed : Nat → EmbedResult) :
    List (Nat × List String) → List (List Int) → Nat → List Event →
    List (List Int) × Nat × List Event × Option String
  | [], vecs, toks, evs => (vecs, toks, evs, none)
  | (b, _) :: rest, vecs, toks, evs =>
    match embed b with
    | .ok vs t =>
      runEmbedStage embed rest (vecs ++ vs) (toks + t)
        (evs ++ [Event.embedBatch b])
    | .err m => (vecs, toks, evs ++ [Event.embedBatch b], some m)

/-- The insert loops (lines 1156–1175 and 1178–1216): per batch, add the
inserted count on success; on an error whose message matches the
duplicate pattern, add `partialResult.insertedCount ?? 0` and continue;
any other error is rethrown (returned), ending the loop. -/
def runInsertStage (tag : Nat → Event) (ins : Nat → InsertResult) :
    List Nat → Nat → List Event → Nat × List Event × Option String
  | [], recs, evs => (recs, evs, none)
  | b :: rest, recs, evs =>
    match ins b with
    | .ok n => runInsertStage tag ins rest (recs + n) (evs ++ [tag b])
    | .err m p =>
      if isDuplicateMsg m then
        runInsertStage tag ins rest (recs + p.getD 0) (evs ++ [tag b])
      else (recs, evs ++ [tag b], some m)

/-- Terminal disposition of one URL's content pipeline. -/
inductive UrlOutcome where
  | skippedShort
  | skippedLowValue
  | skippedNoParents
  | skippedNoChildren
  | failed (msg : String)
  | done
  deriving DecidableEq, Repr

/-- Result of one URL's content pipeline: outcome, `recordsAdded` delta,
`totalEmbeddingTokens` delta, and the external batch calls issued. The
deltas persist even when a later batch fails, exactly as the outer-scope
counters in `loadSampleData` do. -/
structure PipeResult where
  outcome : UrlOutcome
  records : Nat
  tokens : Nat
  events : List Event
  deriving DecidableEq, Repr

/-- External effects of one URL's pipeline: the two text splitters
(the `RecursiveCharacterTextSplitter` library, an external collaborator)
and the embedding / insert oracles keyed by batch start offset. -/
structure PipeEffects where
  parentSplit : String → List String
  childSplit : String → List String
  embed : Nat → EmbedResult
  parentInsert : Nat → InsertResult
  childInsert : Nat → InsertResult

/-- The filtered parent chunks of one URL:
`parentSplitter.splitText(content)` filtered by the parent-chunk gate. -/
def filteredParentsOf (fx : PipeEffects) (content : String) : List String :=
  (fx.parentSplit content).filter parentChunkFilter

/-- The `(parentDocs, childTexts, childParentIds)` triple built for one
URL's content. -/
def pipeDocsOf (fx : PipeEffects) (source url category scrapedAt content : String) :
    List ParentRecord × List String × List String :=
  buildDocs source url category scrapedAt fx.childSplit
    (filteredParentsOf fx content)

/-- The embedding stage of one URL (Step 3, lines 1129–1151), over the
child texts in batches of `EMBED_BATCH = 100`. -/
def embedStageOf (fx : PipeEffects) (source url category scrapedAt content : String) :
    List (List Int) × Nat × List Event × Option String :=
  runEmbedStage fx.embed
    (chunkStarts 100 (pipeDocsOf fx source url category scrapedAt content).2.1)
    [] 0 []

/-- The parent-insert stage of one URL (Step 4, lines 1153–1175), over the
parent documents in batches of `INSERT_BATCH = 20`. -/
def parentStageOf (fx : PipeEffects) (source url category scrapedAt content : String) :
    Nat × List Event × Option String :=
  runInsertStage Event.insertParentBatch fx.parentInsert
    ((chunkStarts 20 (pipeDocsOf fx source url category scrapedAt content).1).map
      Prod.fst) 0 []

/-- The child documents of one URL, as built in Step 5 (lines 1178–1197),
with `$vector := allVectors[globalIdx]`. -/
def childDocsOf (fx : PipeEffects) (source url category scrapedAt content : String) :
    List ChildRecord :=
  buildChildDocs source url category scrapedAt
    (embedStageOf fx source url category scrapedAt content).1
    (pipeDocsOf fx source url category scrapedAt content).2.1
    (pipeDocsOf fx source url category scrapedAt content).2.2 0

/-- The child-insert stage of one URL (Step 5, lines 1199–1216). -/
def childStageOf (fx : PipeEffects) (source url category scrapedAt content : String) :
    Nat × List Event × Option String :=
  runInsertStage Event.insertChildBatch fx.childInsert
    ((chunkStarts 20 (childDocsOf fx source url category scrapedAt content)).map
      Prod.fst) 0 []

/-- The per-URL content pipeline of `loadSampleData` (lines 1037–1225):
length gate, quality gate, parent split + filter, child split + filter,
then (inside the try block) embed all child batches, insert parent
batches, insert child batches. -/
def processUrl (fx : PipeEffects) (source url category scrapedAt content : String) :
    PipeResult :=
  if (trimWs content).length < 200 then
    { outcome := .skippedShort, records := 0, tokens := 0, events := [] }
  else if isLowValueContent content then
    { outcome := .skippedLowValue, records := 0, tokens := 0, events := [] }
  else if (filteredParentsOf fx content).isEmpty then
    { outcome := .skippedNoParents, records := 0, tokens := 0, events := [] }
  else if (pipeDocsOf fx source url category scrapedAt content).2.1.isEmpty then
    { outcome := .skippedNoChildren, records := 0, tokens := 0, events := [] }
  else
    match (embedStageOf fx source url category scrapedAt content).2.2.2 with
    | some m =>
      { outcome := .failed m, records := 0,
        tokens := (embedStageOf fx source url category scrapedAt content).2.1,
        events := (embedStageOf fx source url category scrapedAt content).2.2.1 }
    | none =>
      match (parentStageOf fx source url category scrapedAt content).2.2 with
      | some m =>
        { outcome := .failed m,
          records := (parentStageOf fx source url category scrapedAt content).1,
          tokens := (embedStageOf fx source url category scrapedAt content).2.1,
          events := (embedStageOf fx source url category scrapedAt content).2.2.1 ++
            (parentStageOf fx source url category scrapedAt content).2.1 }
      | none =>
        match (childStageOf fx source url category scrapedAt content).2.2 with
        | some m =>
          { outcome := .failed m,
            records := (parentStageOf fx source url category scrapedAt content).1 +
              (childStageOf fx source url category scrapedAt content).1,
            tokens := (embedStageOf fx source url category scrapedAt content).2.1,
            events := (embedStageOf fx source url category scrapedAt content).2.2.1 ++
              (parentStageOf fx source url category scrapedAt content).2.1 ++
              (childStageOf fx source url category scrapedAt content).2.1 }
        | none =>
          { outcome := .done,
            records := (parentStageOf fx source url category scrapedAt content).1 +
              (childStageOf fx source url category scrapedAt content).1,
            tokens := (embedStageOf fx source url category scrapedAt content).2.1,
            events := (embedStageOf fx source url category scrapedAt content).2.2.1 ++
              (parentStageOf fx source url category scrapedAt content).2.1 ++
              (childStageOf fx source url category scrapedAt content).2.1 }

/-! ## Orchestrator queue (`loadSampleData`, lines 958–1234) -/

/-- Type `SourceType` in `loadDb.ts`. -/
inductive SourceType where
  | html
  | rss
  deriving DecidableEq, Repr

/-- A queue entry (`SourceItem`); `delay` and `category` are optional and
default to `2` seconds and `"unknown"` on destructuring. -/
structure SourceItem where
  url : String
  type : SourceType
  source : String
  delay : Option Nat
  category : Option String
  deriving DecidableEq, Repr

/-- The `BLOCK_PATTERNS` list from `loadDb.ts`, verbatim. -/
def BLOCK_PATTERNS : List String :=
  ["/video", "/videos", "/live", "/liveblog", "/podcast", "/shop", "/store",
   "/tickets", "/about", "/contact", "/privacy", "/terms", "/login",
   "/signin", "/signup", "/account", "/ads", "/subscribe", "/newsletter",
   "/rss", "/feed", "/search", "/photo", "/gallery", ".pdf", ".jpg",
   ".jpeg", ".png", ".gif", ".zip", ".mp4", ".mp3"]

/-- Function `isBlocked` from `loadDb.ts`: lowercase, trim, then test every block
pattern as a substring. -/
def isBlocked (href : String) : Bool :=
  BLOCK_PATTERNS.any (fun p => containsSubstr p (trimWs (toLowerStr href)))

/-- Function `isLikelyHtml` from `loadDb.ts`. -/
def isLikelyHtml (urlStr : String) : Bool :=
  let u := toLowerStr urlStr
  if strEndsWith ".xml" u || strEndsWith ".json" u then false
  else if containsSubstr "/api/" u then false
  else true

/-- The BBC team-page marker. -/
def BBC_TEAM_PATH : String := "bbc.com/sport/football/teams/"

/-- Function `isBbcTeamPage` from `loadDb.ts`. -/
def isBbcTeamPage (url : String) : Bool :=
  containsSubstr BBC_TEAM_PATH (toLowerStr url)

/-- Value `resolveMaxUrls(MAX_SCRAPE_URLS)` compared against `processedUrls`:
the cap check `maxUrls !== undefined && processedUrls >= maxUrls`. -/
def capReached (maxUrls : Option Nat) (processed : Nat) : Bool :=
  match maxUrls with
  | none => false
  | some m => decide (m ≤ processed)

/-- The link-expansion loop shared by the rss and BBC-team-page branches:
for each discovered link, skip it when already in the seen set, otherwise
add it to the seen set and append a fresh html entry to the queue. -/
def enqueueLinks (queue : List SourceItem) (seen : List String)
    (links : List String) (source category : String) :
    List SourceItem × List String :=
  match links with
  | [] => (queue, seen)
  | l :: ls =>
    if seen.contains l then enqueueLinks queue seen ls source category
    else
      enqueueLinks
        (queue ++ [{ url := l, type := .html, source := source,
                     delay := some 2, category := some category }])
        (l :: seen) ls source category

/-- How one queue entry ended. -/
inductive TerminalKind where
  | expanded
  | hubExpanded
  | skippedBlocked
  | skippedShort
  | skippedLowValue
  | skippedNoParents
  | skippedNoChildren
  | failed
  | done
  deriving DecidableEq, Repr

/-- Observable events of the orchestrator loop, in program order. -/
inductive LoopEvent where
  | dequeue (i : Nat) (url : String)
  | sleepAfter (i : Nat) (seconds : Nat)
  | pipe (i : Nat) (e : Event)
  | terminal (i : Nat) (k : TerminalKind)
  deriving DecidableEq, Repr

/-- The run-scoped mutable state of `loadSampleData`. -/
structure RunState where
  processed : Nat
  records : Nat
  tokens : Nat
  skipped : Nat
  failed : Nat
  processedList : List String
  seen : List String
  deriving DecidableEq, Repr

/-- The state at the top of `loadSampleData`. -/
def initState : RunState :=
  { processed := 0, records := 0, tokens := 0, skipped := 0, failed := 0,
    processedList := [], seen := [] }

/-- External effects per loop iteration `i`: the content pipeline oracles,
the scraped content, the (successfully retried) rss feed links, the
filtered BBC team-page links, and the timestamp taken at chunking time. -/
structure LoopEffects where
  pipe : Nat → PipeEffects
  content : Nat → String
  rssLinks : Nat → List String
  hubLinks : Nat → List String
  scrapedAt : Nat → String

/-- Whether the loop continues to the next iteration or stops
(queue exhausted or `break` on the cap). -/
inductive StepControl where
  | next
  | stop
  deriving DecidableEq, Repr

/-- Result of one loop iteration. -/
structure StepOut where
  queue : List SourceItem
  state : RunState
  events : List LoopEvent
  control : StepControl
  deriving Repr

/-- One iteration of the `for (let i = 0; i < queue.length; i += 1)` loop,
branch for branch: rss expansion (before the cap check, with sleep), the
cap `break`, BBC team-page expansion (with sleep), the blocked /
non-html skip (no sleep in the source), and the content pipeline whose
skip, failure and success paths all sleep. -/
def loopStep (fx : LoopEffects) (maxUrls : Option Nat)
    (queue : List SourceItem) (i : Nat) (st : RunState) : StepOut :=
  match queue.get? i with
  | none => { queue := queue, state := st, events := [], control := .stop }
  | some item =>
    let delay := item.delay.getD 2
    let category := item.category.getD "unknown"
    let dq : List LoopEvent := [.dequeue i item.url]
    if item.type = SourceType.rss then
      let exp := enqueueLinks queue st.seen (fx.rssLinks i)
        (item.source ++ " Article") category
      { queue := exp.1, state := { st with seen := exp.2 },
        events := dq ++ [.terminal i .expanded, .sleepAfter i delay],
        control := .next }
    else if capReached maxUrls st.processed then
      { queue := queue, state := st, events := dq, control := .stop }
    else if isBbcTeamPage item.url then
      let exp := enqueueLinks queue st.seen (fx.hubLinks i)
        (item.source ++ " Article") category
      { queue := exp.1, state := { st with seen := exp.2 },
        events := dq ++ [.terminal i .hubExpanded, .sleepAfter i delay],
        control := .next }
    else if isBlocked item.url || !isLikelyHtml item.url then
      { queue := queue, state := { st with skipped := st.skipped + 1 },
        events := dq ++ [.terminal i .skippedBlocked], control := .next }
    else
      let pr := processUrl (fx.pipe i) item.source item.url category
        (fx.scrapedAt i) (fx.content i)
      let pev := pr.events.map (LoopEvent.pipe i)
      match pr.outcome with
      | .skippedShort =>
        { queue := queue, state := { st with skipped := st.skipped + 1 },
          events := dq ++ pev ++ [.terminal i .skippedShort, .sleepAfter i delay],
          control := .next }
      | .skippedLowValue =>
        { queue := queue, state := { st with skipped := st.skipped + 1 },
          events := dq ++ pev ++ [.terminal i .skippedLowValue, .sleepAfter i delay],
          control := .next }
      | .skippedNoParents =>
        { queue := queue, state := { st with skipped := st.skipped + 1 },
          events := dq ++ pev ++ [.terminal i .skippedNoParents, .sleepAfter i delay],
          control := .next }
      | .skippedNoChildren =>
        { queue := queue, state := { st with skipped := st.skipped + 1 },
          events := dq ++ pev ++ [.terminal i .skippedNoChildren, .sleepAfter i delay],
          control := .next }
      | .failed _ =>
        { queue := queue,
          state := { st with
                     failed := st.failed + 1
                     records := st.records + pr.records
                     tokens := st.tokens + pr.tokens },
          events := dq ++ pev ++ [.terminal i .failed, .sleepAfter i delay],
          control := .next }
      | .done =>
        { queue := queue,
          state := { st with
                     processed := st.processed + 1
                     records := st.records + pr.records
                     tokens := st.tokens + pr.tokens
                     processedList := st.processedList ++ [item.url] },
          events := dq ++ pev ++ [.terminal i .done, .sleepAfter i delay],
          control := .next }

/-- The orchestrator loop, iterated with explicit fuel (each call of
`loopStep` consumes one unit; any fuel bounding the total number of
iterations of the concrete run is enough). -/
def runLoop (fx : LoopEffects) (maxUrls : Option Nat) :
    Nat → List SourceItem → Nat → RunState → RunState × List LoopEvent
  | 0, _, _, st => (st, [])
  | Nat.succ fuel, queue, i, st =>
    let so := loopStep fx maxUrls queue i st
    match so.control with
    | .stop => (so.state, so.events)
    | .next =>
      let r := runLoop fx maxUrls fuel so.queue (i + 1) so.state
      (r.1, so.events ++ r.2)

/-! ## Trace checkers for the politeness-delay and cap claims -/

/-- Is the event a dequeue? -/
def isDequeueEv : LoopEvent → Bool
  | .dequeue _ _ => true
  | _ => false

/-- Is the event a sleep attached to entry `i`? -/
def sleepForEntry (i : Nat) : LoopEvent → Bool
  | .sleepAfter j _ => decide (j = i)
  | _ => false

/-- Scanning forward, is entry `i`'s sleep observed before the next
dequeue (vacuously true when no further dequeue occurs)? -/
def sleepBeforeNextDequeue (i : Nat) : List LoopEvent → Bool
  | [] => true
  | e :: rest =>
    if isDequeueEv e then false
    else if sleepForEntry i e then true
    else sleepBeforeNextDequeue i rest

/-- Strict variant: entry `i`'s sleep occurs in this very list, before any
dequeue in it. -/
def hasSleepBeforeDequeue (i : Nat) : List LoopEvent → Bool
  | [] => false
  | e :: rest =>
    if isDequeueEv e then false
    else if sleepForEntry i e then true
    else hasSleepBeforeDequeue i rest

/-- Terminal kinds exempted from the delay check (when `excludeBlocked` is
set, the blocked / non-html skip, which makes no network request). -/
def exemptTerminal (excludeBlocked : Bool) : TerminalKind → Bool
  | .skippedBlocked => excludeBlocked
  | _ => false

/-- The per-entry-delay contract on a trace: after every terminal event
(except the exempted kinds), that entry's sleep is observed before the
next dequeue. -/
def delayObserved (excludeBlocked : Bool) : List LoopEvent → Bool
  | [] => true
  | e :: rest =>
    (match e with
     | .terminal i k =>
       exemptTerminal excludeBlocked k || sleepBeforeNextDequeue i rest
     | _ => true) && delayObserved excludeBlocked rest

/-- Strict per-block variant of `delayObserved`. -/
def delayObservedStrong (excludeBlocked : Bool) : List LoopEvent → Bool
  | [] => true
  | e :: rest =>
    (match e with
     | .terminal i k =>
       exemptTerminal excludeBlocked k || hasSleepBeforeDequeue i rest
     | _ => true) && delayObservedStrong excludeBlocked rest

/-- A terminal transition in the claim's Done / Skipped / Failed sense
(expansions excluded). -/
def isDSFTerminal : LoopEvent → Bool
  | .terminal _ k =>
    match k with
    | .expanded => false
    | .hubExpanded => false
    | _ => true
  | _ => false

/-- Number of Done / Skipped / Failed terminal transitions in a trace. -/
def countDSF (tr : List LoopEvent) : Nat :=
  (tr.filter isDSFTerminal).length

/-- Is the event a successful (`Done`) terminal transition? -/
def isDoneTerminal : LoopEvent → Bool
  | .terminal _ .done => true
  | _ => false

/-- Number of `Done` terminal transitions. -/
def countDone (tr : List LoopEvent) : Nat :=
  (tr.filter isDoneTerminal).length

/-- Number of dequeues. -/
def countDequeues (tr : List LoopEvent) : Nat :=
  (tr.filter isDequeueEv).length

/-! ## Retry wrapper (`withRetry`, lines 294–316) -/

/-- The body of `withRetry`: `attempt` is the loop counter, `remaining` the
number of loop iterations left (`total - attempt + 1`), `lastError` the
captured last failure, `delays` the backoff sleeps performed so far and
`calls` the number of invocations of the wrapped operation. When the loop
ends without a `return`, the captured `lastError` is thrown (`none`
models the `undefined` thrown when `attempts` is `0`). -/
def withRetryGo (fn : Nat → Except String α) (baseDelayMs total : Nat) :
    Nat → Nat → Option String → List Nat → Nat →
    Except (Option String) α × Nat × List Nat
  | _, 0, lastError, delays, calls => (.error lastError, calls, delays)
  | attempt, Nat.succ r, _, delays, calls =>
    match fn attempt with
    | .ok a => (.ok a, calls + 1, delays)
    | .error e =>
      if attempt = total then (.error (some e), calls + 1, delays)
      else
        withRetryGo fn baseDelayMs total (attempt + 1) r (some e)
          (delays ++ [baseDelayMs * 2 ^ (attempt - 1)]) (calls + 1)

/-- Wrapper `withRetry(name, fn, attempts)`: run `fn` up to `attempts` times,
sleeping `baseDelayMs * 2 ^ (attempt - 1)` after each failed attempt
except the last, and rethrow the last error once attempts are exhausted.
Returns (result, number of invocations, backoff delays in order).
`baseDelayMs` is the configured `RETRY_BASE_DELAY_MS`. -/
def withRetry (fn : Nat → Except String α) (baseDelayMs attempts : Nat) :
    Except (Option String) α × Nat × List Nat :=
  withRetryGo fn baseDelayMs attempts 1 attempts none [] 0

/-! ## Retrieval assembly (`POST` in `app/api/chat/route.ts`) -/

/-- A child document returned by the vector search (the projected fields
that the assembly step reads). -/
structure ChildSearchDoc where
  parentId : Option String
  content : String
  deriving DecidableEq, Repr

/-- A parent document returned by the `_id $in` lookup. -/
structure ParentSearchDoc where
  content : String
  deriving DecidableEq, Repr

/-- Order-preserving deduplication, as `Array.from(new Set(xs))`. -/
def dedupePreserve : List String → List String → List String
  | [], _ => []
  | x :: xs, seen =>
    if seen.contains x then dedupePreserve xs seen
    else x :: dedupePreserve xs (x :: seen)

/-- The parent-id collection step:
`Array.from(new Set(childDocs.map(d => d.parentId).filter(Boolean)))`
(JavaScript `Boolean` drops both `undefined` and the empty string). -/
def collectParentIds (childDocs : List ChildSearchDoc) : List String :=
  dedupePreserve ((childDocs.filterMap (fun d => d.parentId)).filter
    (fun s => !s.isEmpty)) []

/-- JSON string escaping as `JSON.stringify` performs on the characters
that matter here (backslash, quote, control characters). -/
def jsonEscapeChar (c : Char) : List Char :=
  if c = '"' then ['\\', '"']
  else if c = '\\' then ['\\', '\\']
  else if c = '\n' then ['\\', 'n']
  else if c = '\t' then ['\\', 't']
  else if c = '\r' then ['\\', 'r']
  else [c]

/-- Serialization `JSON.stringify` of one string. -/
def jsonString (s : String) : String :=
  String.mk ('"' :: (s.toList.map jsonEscapeChar).flatten ++ ['"'])

/-- Serialization `JSON.stringify` of an array of strings. -/
def jsonArray (l : List String) : String :=
  "[" ++ String.intercalate "," (l.map jsonString) ++ "]"

/-- The context-assembly step of the chat route (lines 184–230): collect
distinct parent ids from the child hits, look the parents up (only when
some ids were found), then use the parent contents, else fall back to the
child contents, else leave the context empty. `findParents` is the store
oracle behind `collection.find({ _id: { $in: parentIds } })`. -/
def assembleDocContent (childDocs : List ChildSearchDoc)
    (findParents : List String → List ParentSearchDoc) : String :=
  let parentIds := collectParentIds childDocs
  let parents := if 0 < parentIds.length then findParents parentIds else []
  if 0 < parents.length then jsonArray (parents.map (fun p => p.content))
  else if 0 < childDocs.length then
    jsonArray (childDocs.map (fun d => d.content))
  else ""

/-- Outcome of the chat `POST` handler, as far as the retrieval claims
reach: early 429, early 400, or a chat completion issued with the
assembled context embedded in the system prompt. -/
inductive PostResult where
  | tooManyRequests
  | noMessage
  | completion (docContent : String)
  deriving DecidableEq, Repr

/-- The chat `POST` control flow around retrieval: rate limit, message
validation, then vector search (whose own try/catch resets the context to
the empty string on error) and context assembly; the handler always
proceeds to the chat completion, with an empty context when there were no
hits. `searchOk` models whether the vector-search block threw. -/
def postChat (rateAllowed : Bool) (lastMessage : Option String)
    (searchOk : Bool) (childDocs : List ChildSearchDoc)
    (findParents : List String → List ParentSearchDoc) : PostResult :=
  if !rateAllowed then .tooManyRequests
  else
    match lastMessage with
    | none => .noMessage
    | some _ =>
      .completion (if searchOk then assembleDocContent childDocs findParents
                   else "")

/-! ## Cron authorization gate (`GET` in `app/api/cron/update-db/route.ts`) -/

/-- Response of the cron `GET` handler as far as the authorization claim
reaches: either the 401, or the feed-ingestion pipeline's summary
(abstract, supplied as a parameter). -/
inductive CronResponse (α : Type) where
  | unauthorized
  | completed (summary : α)
  deriving DecidableEq, Repr

/-- The guard at the top of the handler: `if (CRON_SECRET) { if
(authHeader !== `Bearer ${CRON_SECRET}`) return 401 }`; JavaScript
truthiness makes an unset or empty secret skip the check entirely, after
which the whole pipeline runs. -/
def cronGet (cronSecret : Option String) (authHeader : Option String)
    (pipeline : α) : CronResponse α :=
  match cronSecret with
  | some s =>
    if s = "" then .completed pipeline
    else if authHeader = some ("Bearer " ++ s) then .completed pipeline
    else .unauthorized
  | none => .completed pipeline

/-! ## Helper lemmas -/

/-- Lemma: `leBytes` always produces exactly `n` bytes. -/
theorem leBytes_length (n : Nat) : ∀ x, (leBytes n x).length = n := by
  induction n with
  | zero => intro x; rfl
  | succ m ih => intro x; simp [leBytes, ih]

/-- The MD5 digest of any byte list has exactly 16 bytes. -/
theorem md5Bytes_length (msg : List Nat) : (md5Bytes msg).length = 16 := by
  simp [md5Bytes, leBytes_length]

/-- Hex encoding doubles the byte count. -/
theorem bytesToHex_length (bs : List Nat) : (bytesToHex bs).length = 2 * bs.length := by
  induction bs with
  | nil => rfl
  | cons b rest ih =>
    simp only [bytesToHex, List.map_cons, List.flatten_cons, String.length_mk,
      List.length_append, byteHex, List.length_cons, List.length_nil] at ih ⊢
    omega

/-- A nonempty JSON array serialization is never the empty string. -/
theorem jsonArray_ne_empty (l : List String) : jsonArray l ≠ "" := by
  intro h
  have hl := congrArg String.length h
  rw [jsonArray, String.length_append, String.length_append] at hl
  have h1 : "[".length = 1 := rfl
  have h2 : "]".length = 1 := rfl
  have h0 : ("" : String).length = 0 := rfl
  omega

/-! ## C10 — cron authorization gate -/

/-- C10: when `CRON_SECRET` is unset the cron `GET` handler performs no
authorization check and runs the feed-ingestion pipeline for any request;
the 401 response is only reachable when the secret is set (and nonempty,
by JavaScript truthiness) and the authorization header differs from
`"Bearer " + secret`. -/
theorem cron_auth_gate :
    (∀ (α : Type) (authHeader : Option String) (pipeline : α),
        cronGet none authHeader pipeline = CronResponse.completed pipeline) ∧
    (∀ (α : Type) (cronSecret authHeader : Option String) (pipeline : α),
        cronGet cronSecret authHeader pipeline = CronResponse.unauthorized →
        ∃ s, cronSecret = some s ∧ s ≠ "" ∧
          authHeader ≠ some ("Bearer " ++ s)) := by
  constructor
  · intro α h p
    rfl
  · intro α cs h p hres
    match cs with
    | none => simp [cronGet] at hres
    | some s =>
      simp only [cronGet] at hres
      by_cases hs : s = ""
      · rw [if_pos hs] at hres
        exact absurd hres (by simp)
      · rw [if_neg hs] at hres
        by_cases hh : h = some ("Bearer " ++ s)
        · rw [if_pos hh] at hres
          exact absurd hres (by simp)
        · exact ⟨s, rfl, hs, hh⟩

/-- Witness for C10 at a concrete secret and missing header. -/
theorem cron_auth_gate_witness :
    ∃ s, (some "topsecret" : Option String) = some s ∧ s ≠ "" ∧
      (none : Option String) ≠ some ("Bearer " ++ s) :=
  cron_auth_gate.2 Nat (some "topsecret") none 0 (by decide)

/-! ## C9 — retrieval fallback in the chat route -/

/-- C9: when the child vector search returns documents but the parent
lookup finds none of their `parentId`s, the assembled context is exactly
the serialized child contents (and in particular is not empty); when the
child search returns zero documents, the context is the empty string and
the handler still proceeds to the chat completion. -/
theorem chat_retrieval_fallback :
    (∀ (msg : String) (childDocs : List ChildSearchDoc)
        (findParents : List String → List ParentSearchDoc),
        childDocs ≠ [] →
        findParents (collectParentIds childDocs) = [] →
        postChat true (some msg) true childDocs findParents =
          PostResult.completion
            (jsonArray (childDocs.map (fun d => d.content))) ∧
        jsonArray (childDocs.map (fun d => d.content)) ≠ "") ∧
    (∀ (msg : String) (findParents : List String → List ParentSearchDoc),
        postChat true (some msg) true [] findParents =
          PostResult.completion "") := by
  constructor
  · intro msg childDocs findParents hne hfp
    refine ⟨?_, jsonArray_ne_empty _⟩
    have hass : assembleDocContent childDocs findParents =
        jsonArray (childDocs.map (fun d => d.content)) := by
      rw [assembleDocContent]
      have hpar : (if 0 < (collectParentIds childDocs).length then
          findParents (collectParentIds childDocs) else []) = [] := by
        split
        · exact hfp
        · rfl
      rw [hpar]
      simp only [List.length_nil, Nat.lt_irrefl, if_false]
      rw [if_pos (by cases childDocs with
        | nil => exact absurd rfl hne
        | cons d ds => simp)]
    simp [postChat, hass]
  · intro msg findParents
    rfl

/-- Witness for C9 with one orphan child document. -/
theorem chat_retrieval_fallback_witness :
    postChat true (some "who won") true
        [{ parentId := some "deadbeef", content := "Arsenal won 2-1" }]
        (fun _ => []) =
      PostResult.completion (jsonArray ["Arsenal won 2-1"]) :=
  (chat_retrieval_fallback.1 "who won"
    [{ parentId := some "deadbeef", content := "Arsenal won 2-1" }]
    (fun _ => []) (by decide) rfl).1

/-! ## C5 — retry exhaustion -/

/-- Generalized loop invariant for `withRetryGo` when every remaining
attempt fails. -/
theorem withRetryGo_allfail {α : Type} (fn : Nat → Except String α)
    (base n : Nat) (errs : Nat → String)
    (hf : ∀ k, 1 ≤ k → k ≤ n → fn k = .error (errs k)) :
    ∀ (r a : Nat), a + r = n + 1 → 1 ≤ a → a ≤ n →
      ∀ (le : Option String) (ds : List Nat) (calls : Nat),
      withRetryGo fn base n a r le ds calls =
        (.error (some (errs n)), calls + r,
         ds ++ (List.range' a (n - a)).map (fun k => base * 2 ^ (k - 1))) := by
  intro r
  induction r with
  | zero => intro a har h1 han le ds calls; omega
  | succ r ih =>
    intro a har h1 han le ds calls
    have hfa : fn a = .error (errs a) := hf a h1 han
    simp only [withRetryGo, hfa]
    by_cases hae : a = n
    · subst hae
      have hr : r = 0 := by omega
      subst hr
      simp
    · rw [if_neg hae]
      rw [ih (a + 1) (by omega) (by omega) (by omega)]
      have hna : n - a = (n - (a + 1)) + 1 := by omega
      rw [hna, List.range'_succ]
      simp [List.append_assoc]
      omega

/-- C5: an operation failing on every attempt, wrapped with
`withRetry(..., n)`, is invoked exactly `n` times, the error finally
thrown is the one of the last attempt, and the backoff delays are, in
order, `base * 2 ^ (k - 1)` before attempt `k + 1` for `k = 1 .. n - 1`
(the delay list's `k`-th entry, 1-indexed, sits between attempts `k` and
`k + 1`). -/
theorem withRetry_exhaustion {α : Type} (fn : Nat → Except String α)
    (base n : Nat) (errs : Nat → String) (h1 : 1 ≤ n)
    (hf : ∀ k, 1 ≤ k → k ≤ n → fn k = .error (errs k)) :
    withRetry fn base n =
      (.error (some (errs n)), n,
       (List.range' 1 (n - 1)).map (fun k => base * 2 ^ (k - 1))) ∧
    ∀ k, 1 ≤ k → k < n →
      ((List.range' 1 (n - 1)).map (fun k => base * 2 ^ (k - 1))).get? (k - 1) =
        some (base * 2 ^ (k - 1)) := by
  constructor
  · rw [withRetry, withRetryGo_allfail fn base n errs hf n 1 (by omega)
      (by omega) h1]
    have : n - 1 = n - 1 := rfl
    simp
  · intro k hk1 hkn
    rw [List.get?_map, List.get?_range' 1 1 (by omega)]
    simp

/-- The error messages of the concrete always-failing operation. -/
def alwaysFailErrs (k : Nat) : String := "boom " ++ toString k

/-- A concrete operation that fails on every attempt. -/
def alwaysFailOp (k : Nat) : Except String Unit := .error (alwaysFailErrs k)

/-- Witness for C5 with `maxAttempts = 3` and `baseDelay = 1000`. -/
theorem withRetry_exhaustion_witness :
    withRetry alwaysFailOp 1000 3 =
      (.error (some (alwaysFailErrs 3)), 3, [1000, 2000]) := by
  rw [(withRetry_exhaustion alwaysFailOp 1000 3 alwaysFailErrs (by decide)
    (fun k _ _ => rfl)).1]
  rfl

/-! ## C3 — content-addressed chunk identity -/

/-- Same-suffix append injectivity for strings. -/
theorem string_append_right_cancel (a b t : String)
    (h : a ++ t = b ++ t) : a = b := by
  apply String.ext
  have hd := congrArg String.data h
  rw [String.data_append, String.data_append] at hd
  exact List.append_cancel_right hd

/-- C3: the parent id is the 32-hex-character (128-bit) MD5 digest of the
chunk text's UTF-8 bytes and depends only on that text (identical text
under different source metadata, timestamps or runs yields the same id);
the child id is the digest of `parentId ++ "|" ++ text`; distinct parent
ids give distinct hash preimages, and the same child text under two
distinct parents yields two distinct child records. -/
theorem chunk_identity :
    (∀ t : String, md5Hex t = bytesToHex (md5Bytes (utf8Bytes t)) ∧
      (md5Hex t).length = 32) ∧
    (∀ s1 u1 c1 a1 s2 u2 c2 a2 chunk : String,
      (parentRecordOf s1 u1 c1 a1 chunk)._id =
        (parentRecordOf s2 u2 c2 a2 chunk)._id) ∧
    (∀ (s u c a pid chunk : String) (v : Option (List Int)),
      (childRecordOf s u c a pid chunk v)._id =
        md5Hex (pid ++ "|" ++ chunk)) ∧
    (∀ p1 p2 t : String, p1 ≠ p2 → p1 ++ "|" ++ t ≠ p2 ++ "|" ++ t) ∧
    (∀ (s u c a p1 p2 t : String) (v1 v2 : Option (List Int)), p1 ≠ p2 →
      childRecordOf s u c a p1 t v1 ≠ childRecordOf s u c a p2 t v2) := by
  refine ⟨?_, ?_, ?_, ?_, ?_⟩
  · intro t
    refine ⟨rfl, ?_⟩
    rw [md5Hex, bytesToHex_length, md5Bytes_length]
  · intro s1 u1 c1 a1 s2 u2 c2 a2 chunk
    rfl
  · intro s u c a pid chunk v
    rfl
  · intro p1 p2 t hne h
    apply hne
    have h1 := string_append_right_cancel (p1 ++ "|") (p2 ++ "|") t h
    exact string_append_right_cancel p1 p2 "|" h1
  · intro s u c a p1 p2 t v1 v2 hne heq
    exact hne (congrArg ChildRecord.parentId heq)

/-- Witness for C3: the ids of `"a"` and `"b"` are distinct parents, and
the same child text under them yields distinct child records. -/
theorem chunk_identity_witness :
    childRecordOf "S" "U" "news" "T" (md5Hex "a") "same child text" none ≠
      childRecordOf "S" "U" "news" "T" (md5Hex "b") "same child text" none :=
  chunk_identity.2.2.2.2 "S" "U" "news" "T" (md5Hex "a") (md5Hex "b")
    "same child text" none none (by decide)

/-! ## C6 — quality filter boundaries -/

/-- Counterexample input: a 221-normalized-character string that carries
digits and stats keywords (so the stats exception fires first) while also
matching three boilerplate phrases. -/
def statsBoilerText : String :=
  "goal 3 points 2 sign up cookie read more " ++
    String.mk (List.replicate 180 'a')

/-- Counterexample to C6 as stated: this text sits in the 200–800 band and
matches at least 3 boilerplate phrases, yet `isLowValueContent` accepts
it, because the stats exception is tested before the boilerplate rule; so
the 200–800 band does not reject "exactly" the boilerplate/low-diversity
texts. -/
theorem quality_filter_stats_overrides_boilerplate :
    200 ≤ (normalizeText statsBoilerText).length ∧
    (normalizeText statsBoilerText).length < 800 ∧
    3 ≤ boilerplateMatchCount (normalizeText statsBoilerText) ∧
    isLowValueContent statsBoilerText = false := by
  refine ⟨by decide, by decide, by decide, by decide⟩

/-- C6 (amended): the boundary behavior of the quality filter, with the
200–800 boilerplate/diversity rule restricted to texts that do not
qualify for the stats exception. -/
theorem quality_filter_boundaries :
    (∀ s : String, statsException (normalizeText s) = false →
      (normalizeText s).length = 199 → isLowValueContent s = true) ∧
    (∀ s : String, 800 ≤ (normalizeText s).length →
      isLowValueContent s = false) ∧
    (∀ s : String, 100 ≤ (normalizeText s).length →
      hasNumericToken (normalizeText s) = true →
      hasStatsKeyword (normalizeText s) = true →
      isLowValueContent s = false) ∧
    (∀ s : String, statsException (normalizeText s) = false →
      200 ≤ (normalizeText s).length → (normalizeText s).length < 800 →
      (isLowValueContent s = true ↔
        3 ≤ boilerplateMatchCount (normalizeText s) ∨
          distinctWordCount (normalizeText s) < 30)) := by
  refine ⟨?_, ?_, ?_, ?_⟩
  · intro s hstats hlen
    unfold isLowValueContent isLowValueNormalized
    rw [hstats, hlen]
    simp
  · intro s hlen
    unfold isLowValueContent isLowValueNormalized
    split_ifs <;> first | rfl | omega
  · intro s h100 hnum hkey
    have hse : statsException (normalizeText s) = true := by
      rw [statsException, hnum, hkey]
      simp [h100]
    have h0 : ¬((normalizeText s).length = 0) := by omega
    unfold isLowValueContent isLowValueNormalized
    rw [hse, if_neg h0]
    simp
  · intro s hstats h200 h800
    unfold isLowValueContent isLowValueNormalized
    rw [hstats]
    have h0 : ¬((normalizeText s).length = 0) := by omega
    rw [if_neg h0]
    rw [if_neg (show ¬((false : Bool) = true) from by simp)]
    rw [if_neg (show ¬((normalizeText s).length < 200) from by omega)]
    rw [if_neg (show ¬(800 ≤ (normalizeText s).length) from by omega)]
    split_ifs with hb hd
    · simp [hb]
    · simp [hb, hd]
    · simp [hb, hd]

/-- A 199-character plain-prose string (no digits). -/
def plainProse199 : String := String.mk (List.replicate 199 'a')

/-- An 800-character string. -/
def longText800 : String := String.mk (List.replicate 800 'a')

/-- A 150-normalized-character string containing "goal 3 Arsenal 2
points" (lowercased here, as normalization lowercases anyway). -/
def statsShort150 : String :=
  "goal 3 arsenal 2 points " ++ String.mk (List.replicate 126 'a')

/-- A 249-normalized-character boilerplate-laden string with no digits. -/
def boilerMid : String :=
  String.mk ((List.replicate 10 "sign up cookie read more ".toList).flatten)

/-- Witness for C6 at the boundary inputs of the claim. -/
theorem quality_filter_boundaries_witness :
    isLowValueContent plainProse199 = true ∧
    isLowValueContent longText800 = false ∧
    isLowValueContent statsShort150 = false ∧
    isLowValueContent boilerMid = true := by
  refine ⟨?_, ?_, ?_, ?_⟩
  · exact quality_filter_boundaries.1 plainProse199 (by decide) (by decide)
  · exact quality_filter_boundaries.2.1 longText800 (by decide)
  · exact quality_filter_boundaries.2.2.1 statsShort150 (by decide) (by decide)
      (by decide)
  · exact (quality_filter_boundaries.2.2.2 boilerMid (by decide) (by decide)
      (by decide)).mpr (Or.inl (by decide))

/-! ## Stage lemmas for the insertion / embedding claims -/

/-- A batch outcome the insert loop tolerates: success, or an error whose
message matches the duplicate pattern. -/
def okOrDup : InsertResult → Bool
  | .ok _ => true
  | .err m _ => isDuplicateMsg m

/-- The number the insert loop adds to `recordsAdded` for one batch. -/
def insertContribution : InsertResult → Nat
  | .ok n => n
  | .err m p => if isDuplicateMsg m then p.getD 0 else 0

/-- When every batch succeeds or fails as a duplicate, the insert loop
completes, adding each batch's inserted (or partial-result) count. -/
theorem runInsertStage_all_ok_or_dup (tag : Nat → Event)
    (ins : Nat → InsertResult) :
    ∀ (starts : List Nat) (recs : Nat) (evs : List Event),
      (∀ b ∈ starts, okOrDup (ins b) = true) →
      runInsertStage tag ins starts recs evs =
        (recs + (starts.map (fun b => insertContribution (ins b))).sum,
         evs ++ starts.map tag, none) := by
  intro starts
  induction starts with
  | nil => intro recs evs _; simp [runInsertStage]
  | cons b rest ih =>
    intro recs evs hall
    have hb := hall b (List.mem_cons_self b rest)
    have hrest : ∀ x ∈ rest, okOrDup (ins x) = true :=
      fun x hx => hall x (List.mem_cons_of_mem b hx)
    simp only [runInsertStage]
    cases hres : ins b with
    | ok n =>
      dsimp only
      rw [ih (recs + n) (evs ++ [tag b]) hrest]
      simp only [Prod.mk.injEq, List.map_cons, List.sum_cons,
        insertContribution, hres]
      exact ⟨by omega, by simp, trivial⟩
    | err m p =>
      rw [hres] at hb
      have hdup : isDuplicateMsg m = true := by simpa [okOrDup] using hb
      dsimp only
      rw [if_pos hdup]
      rw [ih (recs + p.getD 0) (evs ++ [tag b]) hrest]
      simp only [Prod.mk.injEq, List.map_cons, List.sum_cons,
        insertContribution, hres, if_pos hdup]
      exact ⟨by omega, by simp, trivial⟩

/-- On a duplicate-pattern error the insert loop adds the partial
insert count and continues with the following batches. -/
theorem runInsertStage_dup_continues (tag : Nat → Event)
    (ins : Nat → InsertResult) (b : Nat) (rest : List Nat) (recs : Nat)
    (evs : List Event) (m : String) (p : Option Nat)
    (hres : ins b = InsertResult.err m p) (hdup : isDuplicateMsg m = true) :
    runInsertStage tag ins (b :: rest) recs evs =
      runInsertStage tag ins rest (recs + p.getD 0) (evs ++ [tag b]) := by
  simp only [runInsertStage, hres]
  rw [if_pos hdup]

/-- The error the insert loop lets escape is never a duplicate-pattern
error. -/
theorem runInsertStage_err_not_dup (tag : Nat → Event)
    (ins : Nat → InsertResult) :
    ∀ (starts : List Nat) (recs : Nat) (evs : List Event) (m : String),
      (runInsertStage tag ins starts recs evs).2.2 = some m →
      isDuplicateMsg m = false := by
  intro starts
  induction starts with
  | nil => intro recs evs m h; simp [runInsertStage] at h
  | cons b rest ih =>
    intro recs evs m h
    simp only [runInsertStage] at h
    cases hres : ins b with
    | ok n =>
      rw [hres] at h
      dsimp only at h
      exact ih _ _ _ h
    | err m' p =>
      rw [hres] at h
      dsimp only at h
      by_cases hdup : isDuplicateMsg m' = true
      · rw [if_pos hdup] at h
        exact ih _ _ _ h
      · rw [if_neg hdup] at h
        simp only at h
        cases h
        exact Bool.not_eq_true _ ▸ (Bool.eq_false_iff.mpr (fun hc => hdup hc))

/-- Every event the embed loop emits is an `embedBatch` (or was already in
the accumulator). -/
theorem runEmbedStage_events (embed : Nat → EmbedResult) :
    ∀ (batches : List (Nat × List String)) (vecs : List (List Int))
      (toks : Nat) (evs : List Event),
      ∀ e ∈ (runEmbedStage embed batches vecs toks evs).2.2.1,
        e ∈ evs ∨ ∃ b, e = Event.embedBatch b := by
  intro batches
  induction batches with
  | nil => intro vecs toks evs e he; exact Or.inl he
  | cons pr rest ih =>
    intro vecs toks evs e he
    obtain ⟨b, ts⟩ := pr
    simp only [runEmbedStage] at he
    cases hres : embed b with
    | ok vs t =>
      rw [hres] at he
      dsimp only at he
      rcases ih _ _ _ e he with h | h
      · rcases List.mem_append.mp h with h' | h'
        · exact Or.inl h'
        · exact Or.inr ⟨b, List.mem_singleton.mp h'⟩
      · exact Or.inr h
    | err m =>
      rw [hres] at he
      dsimp only at he
      rcases List.mem_append.mp he with h' | h'
      · exact Or.inl h'
      · exact Or.inr ⟨b, List.mem_singleton.mp h'⟩

/-- Every event the insert loop emits is a `tag` event (or was already in
the accumulator). -/
theorem runInsertStage_events (tag : Nat → Event) (ins : Nat → InsertResult) :
    ∀ (starts : List Nat) (recs : Nat) (evs : List Event),
      ∀ e ∈ (runInsertStage tag ins starts recs evs).2.1,
        e ∈ evs ∨ ∃ b, e = tag b := by
  intro starts
  induction starts with
  | nil => intro recs evs e he; exact Or.inl he
  | cons b rest ih =>
    intro recs evs e he
    simp only [runInsertStage] at he
    cases hres : ins b with
    | ok n =>
      rw [hres] at he
      dsimp only at he
      rcases ih _ _ e he with h | h
      · rcases List.mem_append.mp h with h' | h'
        · exact Or.inl h'
        · exact Or.inr ⟨b, List.mem_singleton.mp h'⟩
      · exact Or.inr h
    | err m p =>
      rw [hres] at he
      dsimp only at he
      by_cases hdup : isDuplicateMsg m = true
      · rw [if_pos hdup] at he
        rcases ih _ _ e he with h | h
        · rcases List.mem_append.mp h with h' | h'
          · exact Or.inl h'
          · exact Or.inr ⟨b, List.mem_singleton.mp h'⟩
        · exact Or.inr h
      · rw [if_neg hdup] at he
        simp only at he
        rcases List.mem_append.mp he with h' | h'
        · exact Or.inl h'
        · exact Or.inr ⟨b, List.mem_singleton.mp h'⟩

/-- If every element of the right part lacks property `P` and position `i`
holds an element with `P`, that position is inside the left part. -/
theorem idx_lt_of_all_not {α : Type} (P : α → Prop) (A B : List α) (i : Nat)
    (x : α) (hget : (A ++ B).get? i = some x) (hB : ∀ e ∈ B, ¬ P e)
    (hx : P x) : i < A.length := by
  by_contra hnot
  push_neg at hnot
  rw [List.get?_append_right hnot] at hget
  exact hB x (List.get?_mem hget) hx

/-- If every element of the left part lacks property `Q` and position `j`
holds an element with `Q`, that position is past the left part. -/
theorem idx_ge_of_all_not {α : Type} (Q : α → Prop) (A B : List α) (j : Nat)
    (x : α) (hget : (A ++ B).get? j = some x) (hA : ∀ e ∈ A, ¬ Q e)
    (hx : Q x) : A.length ≤ j := by
  by_contra hnot
  push_neg at hnot
  rw [List.get?_append hnot] at hget
  exact hA x (List.get?_mem hget) hx

/-- The event trace of one URL's pipeline splits into an embed part, a
parent-insert part and a child-insert part, in that order. -/
theorem processUrl_events_split (fx : PipeEffects)
    (source url category scrapedAt content : String) :
    ∃ e1 e2 e3,
      (processUrl fx source url category scrapedAt content).events =
        e1 ++ e2 ++ e3 ∧
      (∀ e ∈ e1, ∃ b, e = Event.embedBatch b) ∧
      (∀ e ∈ e2, ∃ b, e = Event.insertParentBatch b) ∧
      (∀ e ∈ e3, ∃ b, e = Event.insertChildBatch b) := by
  have hemb : ∀ e ∈ (embedStageOf fx source url category scrapedAt content).2.2.1,
      ∃ b, e = Event.embedBatch b := by
    intro e he
    rcases runEmbedStage_events _ _ _ _ _ e he with h | h
    · cases h
    · exact h
  have hpar : ∀ e ∈ (parentStageOf fx source url category scrapedAt content).2.1,
      ∃ b, e = Event.insertParentBatch b := by
    intro e he
    rcases runInsertStage_events _ _ _ _ _ e he with h | h
    · cases h
    · exact h
  have hchi : ∀ e ∈ (childStageOf fx source url category scrapedAt content).2.1,
      ∃ b, e = Event.insertChildBatch b := by
    intro e he
    rcases runInsertStage_events _ _ _ _ _ e he with h | h
    · cases h
    · exact h
  unfold processUrl
  split_ifs with h1 h2 h3 h4
  · exact ⟨[], [], [], by simp, by simp, by simp, by simp⟩
  · exact ⟨[], [], [], by simp, by simp, by simp, by simp⟩
  · exact ⟨[], [], [], by simp, by simp, by simp, by simp⟩
  · exact ⟨[], [], [], by simp, by simp, by simp, by simp⟩
  · split
    · exact ⟨(embedStageOf fx source url category scrapedAt content).2.2.1,
        [], [], by simp, hemb, by simp, by simp⟩
    · split
      · exact ⟨(embedStageOf fx source url category scrapedAt content).2.2.1,
          (parentStageOf fx source url category scrapedAt content).2.1,
          [], by simp, hemb, hpar, by simp⟩
      · split
        · exact ⟨(embedStageOf fx source url category scrapedAt content).2.2.1,
            (parentStageOf fx source url category scrapedAt content).2.1,
            (childStageOf fx source url category scrapedAt content).2.1,
            by simp, hemb, hpar, hchi⟩
        · exact ⟨(embedStageOf fx source url category scrapedAt content).2.2.1,
            (parentStageOf fx source url category scrapedAt content).2.1,
            (childStageOf fx source url category scrapedAt content).2.1,
            by simp, hemb, hpar, hchi⟩

/-- When a normal (non-feed, non-hub, non-blocked) entry's pipeline fails,
the loop counts the URL as failed, keeps its partial records/token
deltas, and continues with the next queue entry. -/
theorem loopStep_pipeline_failed (fx : LoopEffects) (maxUrls : Option Nat)
    (queue : List SourceItem) (i : Nat) (st : RunState) (item : SourceItem)
    (m : String) (hget : queue.get? i = some item)
    (htype : item.type ≠ SourceType.rss)
    (hcap : capReached maxUrls st.processed = false)
    (hbbc : isBbcTeamPage item.url = false)
    (hblk : isBlocked item.url = false)
    (hhtml : isLikelyHtml item.url = true)
    (hout : (processUrl (fx.pipe i) item.source item.url
      (item.category.getD "unknown") (fx.scrapedAt i)
      (fx.content i)).outcome = UrlOutcome.failed m) :
    (loopStep fx maxUrls queue i st).control = StepControl.next ∧
    (loopStep fx maxUrls queue i st).state.failed = st.failed + 1 ∧
    (loopStep fx maxUrls queue i st).state.processed = st.processed ∧
    (loopStep fx maxUrls queue i st).queue = queue := by
  unfold loopStep
  rw [hget]
  dsimp only
  rw [if_neg htype, hcap, hbbc, hblk, hhtml]
  simp only [Bool.false_eq_true, if_false, Bool.not_true, Bool.or_false,
    Bool.false_or]
  rw [hout]
  exact ⟨rfl, rfl, rfl, rfl⟩

/-- Every `parentId` recorded in `childMeta` is the `_id` of one of the
parent documents built in the same pass. -/
theorem buildDocs_pid_mem (source url category scrapedAt : String)
    (childSplit : String → List String) :
    ∀ (parents : List String) (pid : String),
      pid ∈ (buildDocs source url category scrapedAt childSplit parents).2.2 →
      pid ∈ (buildDocs source url category scrapedAt childSplit
        parents).1.map (fun p => p._id) := by
  intro parents
  induction parents with
  | nil => intro pid h; cases h
  | cons p ps ih =>
    intro pid h
    simp only [buildDocs] at h ⊢
    rcases List.mem_append.mp h with h' | h'
    · rcases List.mem_map.mp h' with ⟨c, _, hc⟩
      subst hc
      simp [parentRecordOf]
    · exact List.mem_cons.mpr (Or.inr (ih pid h'))

/-- Every child document built for insertion carries a `parentId` drawn
from the supplied parent-id list. -/
theorem buildChildDocs_pid_mem (source url category scrapedAt : String)
    (vectors : List (List Int)) :
    ∀ (cs pids : List String) (i : Nat) (d : ChildRecord),
      d ∈ buildChildDocs source url category scrapedAt vectors cs pids i →
      d.parentId ∈ pids := by
  intro cs
  induction cs with
  | nil => intro pids i d h; cases pids <;> cases h
  | cons c rest ih =>
    intro pids i d h
    cases pids with
    | nil => cases h
    | cons pid pids' =>
      simp only [buildChildDocs] at h
      rcases List.mem_cons.mp h with h' | h'
      · subst h'
        exact List.mem_cons_self _ _
      · exact List.mem_cons.mpr (Or.inr (ih pids' (i + 1) d h'))

/-! ## C1 — duplicate-tolerant batch insertion -/

/-- C1: a batch-insert error whose message contains "already exists" or
"duplicate" makes the writer add that batch's `partialResult.insertedCount`
to the running total and continue; when every batch succeeds or fails as a
duplicate, the whole insert loop completes, adding each batch's
contribution; the error the loop lets escape is never a duplicate-pattern
one; and such an escaped error makes the orchestrator count the URL as
failed and continue with the next queue entry. -/
theorem writer_duplicate_tolerance :
    (∀ (tag : Nat → Event) (ins : Nat → InsertResult) (b : Nat)
       (rest : List Nat) (recs : Nat) (evs : List Event) (m : String)
       (p : Option Nat), ins b = InsertResult.err m p →
       isDuplicateMsg m = true →
       runInsertStage tag ins (b :: rest) recs evs =
         runInsertStage tag ins rest (recs + p.getD 0) (evs ++ [tag b])) ∧
    (∀ (tag : Nat → Event) (ins : Nat → InsertResult) (starts : List Nat)
       (recs : Nat) (evs : List Event),
       (∀ b ∈ starts, okOrDup (ins b) = true) →
       runInsertStage tag ins starts recs evs =
         (recs + (starts.map (fun b => insertContribution (ins b))).sum,
          evs ++ starts.map tag, none)) ∧
    (∀ (tag : Nat → Event) (ins : Nat → InsertResult) (starts : List Nat)
       (recs : Nat) (evs : List Event) (m : String),
       (runInsertStage tag ins starts recs evs).2.2 = some m →
       isDuplicateMsg m = false) ∧
    (∀ (fx : LoopEffects) (maxUrls : Option Nat) (queue : List SourceItem)
       (i : Nat) (st : RunState) (item : SourceItem) (m : String),
       queue.get? i = some item → item.type ≠ SourceType.rss →
       capReached maxUrls st.processed = false →
       isBbcTeamPage item.url = false → isBlocked item.url = false →
       isLikelyHtml item.url = true →
       (processUrl (fx.pipe i) item.source item.url
         (item.category.getD "unknown") (fx.scrapedAt i)
         (fx.content i)).outcome = UrlOutcome.failed m →
       (loopStep fx maxUrls queue i st).control = StepControl.next ∧
       (loopStep fx maxUrls queue i st).state.failed = st.failed + 1) := by
  refine ⟨?_, ?_, ?_, ?_⟩
  · intro tag ins b rest recs evs m p hres hdup
    exact runInsertStage_dup_continues tag ins b rest recs evs m p hres hdup
  · intro tag ins starts recs evs hall
    exact runInsertStage_all_ok_or_dup tag ins starts recs evs hall
  · intro tag ins starts recs evs m h
    exact runInsertStage_err_not_dup tag ins starts recs evs m h
  · intro fx maxUrls queue i st item m hget htype hcap hbbc hblk hhtml hout
    obtain ⟨hc, hf, _, _⟩ := loopStep_pipeline_failed fx maxUrls queue i st
      item m hget htype hcap hbbc hblk hhtml hout
    exact ⟨hc, hf⟩

/-- Concrete insert oracle: batch 0 hits a duplicate conflict with a
partial result of 2 inserted documents; batch 20 inserts 3. -/
def dupIns : Nat → InsertResult := fun b =>
  if b = 0 then InsertResult.err "Document already exists" (some 2)
  else InsertResult.ok 3

/-- Witness for C1: the duplicate batch contributes its partial count and
the loop continues; over both batches the total is 5 and no error
escapes. -/
theorem writer_duplicate_tolerance_witness :
    runInsertStage Event.insertParentBatch dupIns [0, 20] 0 [] =
      runInsertStage Event.insertParentBatch dupIns [20] 2
        [Event.insertParentBatch 0] ∧
    runInsertStage Event.insertParentBatch dupIns [0, 20] 0 [] =
      (5, [Event.insertParentBatch 0, Event.insertParentBatch 20], none) := by
  constructor
  · simpa using writer_duplicate_tolerance.1 Event.insertParentBatch dupIns 0
      [20] 0 [] "Document already exists" (some 2) rfl (by decide)
  · rw [writer_duplicate_tolerance.2.1 Event.insertParentBatch dupIns [0, 20]
      0 [] (by decide)]
    rfl

/-! ## C2 — parent/child linkage and write ordering -/

/-- C2: every child document built during one URL's ingestion carries a
`parentId` equal to the `_id` of a parent document built from the same
source document in the same pass, and in the pipeline's event trace every
parent-insert batch precedes every child-insert batch. -/
theorem parent_child_linkage :
    (∀ (source url category scrapedAt : String)
       (childSplit : String → List String) (parents : List String)
       (pid : String),
       pid ∈ (buildDocs source url category scrapedAt childSplit parents).2.2 →
       pid ∈ (buildDocs source url category scrapedAt childSplit
         parents).1.map (fun p => p._id)) ∧
    (∀ (fx : PipeEffects) (source url category scrapedAt content : String)
       (d : ChildRecord),
       d ∈ childDocsOf fx source url category scrapedAt content →
       d.parentId ∈ (pipeDocsOf fx source url category scrapedAt
         content).1.map (fun p => p._id)) ∧
    (∀ (fx : PipeEffects) (source url category scrapedAt content : String)
       (i j bi bj : Nat),
       (processUrl fx source url category scrapedAt content).events.get? i =
         some (Event.insertParentBatch bi) →
       (processUrl fx source url category scrapedAt content).events.get? j =
         some (Event.insertChildBatch bj) →
       i < j) := by
  refine ⟨?_, ?_, ?_⟩
  · intro source url category scrapedAt childSplit parents pid h
    exact buildDocs_pid_mem source url category scrapedAt childSplit parents
      pid h
  · intro fx source url category scrapedAt content d hd
    have h1 := buildChildDocs_pid_mem source url category scrapedAt
      (embedStageOf fx source url category scrapedAt content).1
      (pipeDocsOf fx source url category scrapedAt content).2.1
      (pipeDocsOf fx source url category scrapedAt content).2.2 0 d hd
    unfold pipeDocsOf at h1 ⊢
    exact buildDocs_pid_mem source url category scrapedAt fx.childSplit
      (filteredParentsOf fx content) d.parentId h1
  · intro fx source url category scrapedAt content i j bi bj hi hj
    obtain ⟨e1, e2, e3, hsplit, hs1, hs2, hs3⟩ :=
      processUrl_events_split fx source url category scrapedAt content
    rw [hsplit] at hi hj
    have hilt : i < (e1 ++ e2).length := by
      refine idx_lt_of_all_not
        (fun e => ∃ b, e = Event.insertParentBatch b) (e1 ++ e2) e3 i _ hi
        ?_ ⟨bi, rfl⟩
      intro e he ⟨b, hb⟩
      rcases hs3 e he with ⟨b', hb'⟩
      rw [hb'] at hb
      cases hb
    have hjge : (e1 ++ e2).length ≤ j := by
      refine idx_ge_of_all_not
        (fun e => ∃ b, e = Event.insertChildBatch b) (e1 ++ e2) e3 j _ hj
        ?_ ⟨bj, rfl⟩
      intro e he ⟨b, hb⟩
      rcases List.mem_append.mp he with h' | h'
      · rcases hs1 e h' with ⟨b', hb'⟩
        rw [hb'] at hb
        cases hb
      · rcases hs2 e h' with ⟨b', hb'⟩
        rw [hb'] at hb
        cases hb
    omega

/-- Shared concrete content for pipeline witnesses: a 216-character
stats-flavoured text that passes every gate. -/
def goodContent : String :=
  "goal 3 points 2 " ++ String.mk (List.replicate 200 'a')

/-- Concrete pipeline effects where everything succeeds. -/
def okPipe : PipeEffects :=
  { parentSplit := fun s => [s], childSplit := fun s => [s],
    embed := fun _ => EmbedResult.ok [[1]] 1,
    parentInsert := fun _ => InsertResult.ok 1,
    childInsert := fun _ => InsertResult.ok 1 }

/-- Witness for C2 on a concrete successful run: the parent-insert event
(position 1) precedes the child-insert event (position 2), and the built
child document's `parentId` is the built parent document's `_id`. -/
theorem parent_child_linkage_witness :
    (1 : Nat) < 2 ∧
    ∀ d ∈ childDocsOf okPipe "S" "U" "news" "T" goodContent,
      d.parentId ∈ (pipeDocsOf okPipe "S" "U" "news" "T"
        goodContent).1.map (fun p => p._id) := by
  constructor
  · exact parent_child_linkage.2.2 okPipe "S" "U" "news" "T" goodContent
      1 2 0 0 (by decide) (by decide)
  · intro d hd
    exact parent_child_linkage.2.1 okPipe "S" "U" "news" "T" goodContent d hd

/-! ## C4 — exhausted embedding retries abort the URL before any insert -/

/-- C4: when the embedding stage of a URL ends with an error (a batch
whose retries were exhausted), the pipeline's outcome is that failure, no
record was added, every event issued is an embed call (no parent or child
insert was issued, because all embedding batches complete before the
first insert), and at the orchestrator level the URL is counted as failed
while the run continues with the next queue entry. -/
theorem embed_failure_aborts_url (fx : PipeEffects)
    (source url category scrapedAt content : String) (m : String)
    (h1 : ¬ (trimWs content).length < 200)
    (h2 : isLowValueContent content = false)
    (h3 : (filteredParentsOf fx content).isEmpty = false)
    (h4 : (pipeDocsOf fx source url category scrapedAt
      content).2.1.isEmpty = false)
    (hemb : (embedStageOf fx source url category scrapedAt
      content).2.2.2 = some m) :
    (processUrl fx source url category scrapedAt content).outcome =
      UrlOutcome.failed m ∧
    (processUrl fx source url category scrapedAt content).records = 0 ∧
    (∀ e ∈ (processUrl fx source url category scrapedAt content).events,
      ∃ b, e = Event.embedBatch b) ∧
    (∀ (lfx : LoopEffects) (maxUrls : Option Nat) (queue : List SourceItem)
       (i : Nat) (st : RunState) (item : SourceItem),
       queue.get? i = some item → item.type ≠ SourceType.rss →
       capReached maxUrls st.processed = false →
       isBbcTeamPage item.url = false → isBlocked item.url = false →
       isLikelyHtml item.url = true →
       lfx.pipe i = fx → lfx.content i = content →
       lfx.scrapedAt i = scrapedAt → item.source = source →
       item.url = url → item.category.getD "unknown" = category →
       (loopStep lfx maxUrls queue i st).control = StepControl.next ∧
       (loopStep lfx maxUrls queue i st).state.failed = st.failed + 1) := by
  have hc1 : ¬(isLowValueContent content = true) := by simp [h2]
  have hc2 : ¬((filteredParentsOf fx content).isEmpty = true) := by simp [h3]
  have hc3 : ¬((pipeDocsOf fx source url category scrapedAt
      content).2.1.isEmpty = true) := by simp [h4]
  have hmain : (processUrl fx source url category scrapedAt content) =
      { outcome := UrlOutcome.failed m, records := 0,
        tokens := (embedStageOf fx source url category scrapedAt content).2.1,
        events := (embedStageOf fx source url category scrapedAt
          content).2.2.1 } := by
    unfold processUrl
    rw [if_neg h1, if_neg hc1, if_neg hc2, if_neg hc3, hemb]
  refine ⟨by rw [hmain], by rw [hmain], ?_, ?_⟩
  · rw [hmain]
    intro e he
    rcases runEmbedStage_events _ _ _ _ _ e he with h | h
    · cases h
    · exact h
  · intro lfx maxUrls queue i st item hget htype hcap hbbc hblk hhtml hfx
      hcontent hts hsource hurl hcat
    have hout : (processUrl (lfx.pipe i) item.source item.url
        (item.category.getD "unknown") (lfx.scrapedAt i)
        (lfx.content i)).outcome = UrlOutcome.failed m := by
      rw [hfx, hcontent, hts, hsource, hurl, hcat, hmain]
    obtain ⟨hc, hf, _, _⟩ := loopStep_pipeline_failed lfx maxUrls queue i st
      item m hget htype hcap hbbc hblk hhtml hout
    exact ⟨hc, hf⟩

/-- Concrete pipeline effects whose embedding calls always fail. -/
def failEmbedPipe : PipeEffects :=
  { okPipe with embed := fun _ => EmbedResult.err "rate limited" }

/-- Witness for C4 on a concrete run: the URL fails with the embed error,
adds no record, and only embed calls were issued. -/
theorem embed_failure_aborts_url_witness :
    (processUrl failEmbedPipe "S" "U" "news" "T" goodContent).outcome =
      UrlOutcome.failed "rate limited" ∧
    (processUrl failEmbedPipe "S" "U" "news" "T" goodContent).records = 0 := by
  have h := embed_failure_aborts_url failEmbedPipe "S" "U" "news" "T"
    goodContent "rate limited" (by decide) (by decide) (by decide)
    (by decide) (by decide)
  exact ⟨h.1, h.2.1⟩

/-! ## C7 — the `maxUrls` cap -/

/-- Loop effects in which every entry scrapes `goodContent` and every
external call succeeds. -/
def okLoopFx : LoopEffects :=
  { pipe := fun _ => okPipe, content := fun _ => goodContent,
    rssLinks := fun _ => [], hubLinks := fun _ => [],
    scrapedAt := fun _ => "T" }

/-- A plain html queue entry. -/
def mkEntry (u : String) : SourceItem :=
  { url := u, type := SourceType.html, source := "S", delay := some 1,
    category := some "news" }

/-- A 20-entry queue of non-expanding entries whose first URL is blocked
(so it is skipped) while the rest succeed. -/
def cap20Queue : List SourceItem :=
  mkEntry "https://site.test/login" ::
    (List.range 19).map
      (fun j => mkEntry ("https://site.test/page/" ++ toString j))

/-- Counterexample to C7 as stated: with `maxUrls = 5` and this queue of
20 non-expanding entries, six (not five) entries reach a
Done/Skipped/Failed terminal state, because skipped entries do not count
toward the cap — only successfully completed URLs do. -/
theorem cap_claim_counterexample :
    cap20Queue.length = 20 ∧
    (∀ e ∈ cap20Queue, e.type = SourceType.html ∧
      isBbcTeamPage e.url = false) ∧
    countDSF (runLoop okLoopFx (some 5) 30 cap20Queue 0 initState).2 = 6 := by
  refine ⟨by decide, by decide, by decide⟩

/-- One loop step never pushes the success counter past the cap. -/
theorem loopStep_processed_le (fx : LoopEffects) (m : Nat)
    (queue : List SourceItem) (i : Nat) (st : RunState)
    (h : st.processed ≤ m) :
    (loopStep fx (some m) queue i st).state.processed ≤ m := by
  unfold loopStep
  cases hget : queue.get? i with
  | none => exact h
  | some item =>
    dsimp only
    split_ifs with h1 h2 h3 h4
    · exact h
    · exact h
    · exact h
    · exact h
    · split
      · exact h
      · exact h
      · exact h
      · exact h
      · exact h
      · simp only [capReached, decide_eq_true_eq] at h2
        simp only []
        omega

/-- The success counter never exceeds the cap over a whole run. -/
theorem runLoop_processed_le (fx : LoopEffects) (m : Nat) :
    ∀ (fuel : Nat) (queue : List SourceItem) (i : Nat) (st : RunState),
      st.processed ≤ m →
      (runLoop fx (some m) fuel queue i st).1.processed ≤ m := by
  intro fuel
  induction fuel with
  | zero => intro queue i st h; exact h
  | succ f ih =>
    intro queue i st h
    simp only [runLoop]
    cases hctl : (loopStep fx (some m) queue i st).control with
    | stop =>
      dsimp only
      exact loopStep_processed_le fx m queue i st h
    | next =>
      dsimp only
      exact ih _ _ _ (loopStep_processed_le fx m queue i st h)

/-- Once the cap is reached, a non-rss entry is dequeued and the loop
immediately breaks: nothing is processed and hub pages are not
expanded. -/
theorem loopStep_cap_stop (fx : LoopEffects) (m : Nat)
    (queue : List SourceItem) (i : Nat) (st : RunState) (item : SourceItem)
    (hget : queue.get? i = some item) (htype : item.type ≠ SourceType.rss)
    (hcap : m ≤ st.processed) :
    loopStep fx (some m) queue i st =
      { queue := queue, state := st,
        events := [LoopEvent.dequeue i item.url],
        control := StepControl.stop } := by
  unfold loopStep
  rw [hget]
  dsimp only
  rw [if_neg htype]
  have hc : capReached (some m) st.processed = true := by
    simp [capReached, hcap]
  rw [hc]
  simp

/-- An rss entry is expanded (and the loop continues) regardless of the
processed count, because the feed branch precedes the cap check. -/
theorem loopStep_rss_expands (fx : LoopEffects) (maxUrls : Option Nat)
    (queue : List SourceItem) (i : Nat) (st : RunState) (item : SourceItem)
    (hget : queue.get? i = some item)
    (htype : item.type = SourceType.rss) :
    (loopStep fx maxUrls queue i st).control = StepControl.next ∧
    LoopEvent.terminal i TerminalKind.expanded ∈
      (loopStep fx maxUrls queue i st).events ∧
    (loopStep fx maxUrls queue i st).queue =
      (enqueueLinks queue st.seen (fx.rssLinks i)
        (item.source ++ " Article") (item.category.getD "unknown")).1 := by
  unfold loopStep
  rw [hget]
  dsimp only
  rw [if_pos htype]
  exact ⟨rfl, by simp, rfl⟩

/-- A 20-entry queue of non-expanding entries that all succeed. -/
def goodQueue20 : List SourceItem :=
  (List.range 20).map
    (fun j => mkEntry ("https://site.test/page/" ++ toString j))

/-- C7 (amended): the cap counts only successfully completed (`Done`)
URLs — skips and failures do not count. With `maxUrls = 5` and 20
non-expanding entries that all succeed, exactly 5 are completed and only
6 are dequeued; the success counter never exceeds the cap; once the cap
is reached a non-rss entry is dequeued and the loop breaks immediately
(so hub pages are no longer expanded), while rss feed entries are still
expanded. -/
theorem cap_enforcement :
    (countDone (runLoop okLoopFx (some 5) 30 goodQueue20 0 initState).2 = 5 ∧
     countDSF (runLoop okLoopFx (some 5) 30 goodQueue20 0 initState).2 = 5 ∧
     countDequeues (runLoop okLoopFx (some 5) 30 goodQueue20 0
       initState).2 = 6) ∧
    (∀ (fx : LoopEffects) (m : Nat) (fuel : Nat) (queue : List SourceItem)
       (i : Nat) (st : RunState), st.processed ≤ m →
       (runLoop fx (some m) fuel queue i st).1.processed ≤ m) ∧
    (∀ (fx : LoopEffects) (m : Nat) (queue : List SourceItem) (i : Nat)
       (st : RunState) (item : SourceItem),
       queue.get? i = some item → item.type ≠ SourceType.rss →
       m ≤ st.processed →
       loopStep fx (some m) queue i st =
         { queue := queue, state := st,
           events := [LoopEvent.dequeue i item.url],
           control := StepControl.stop }) ∧
    (∀ (fx : LoopEffects) (maxUrls : Option Nat) (queue : List SourceItem)
       (i : Nat) (st : RunState) (item : SourceItem),
       queue.get? i = some item → item.type = SourceType.rss →
       (loopStep fx maxUrls queue i st).control = StepControl.next ∧
       LoopEvent.terminal i TerminalKind.expanded ∈
         (loopStep fx maxUrls queue i st).events) := by
  refine ⟨⟨by decide, by decide, by decide⟩, ?_, ?_, ?_⟩
  · intro fx m fuel queue i st h
    exact runLoop_processed_le fx m fuel queue i st h
  · intro fx m queue i st item hget htype hcap
    exact loopStep_cap_stop fx m queue i st item hget htype hcap
  · intro fx maxUrls queue i st item hget htype
    obtain ⟨hc, hm, _⟩ := loopStep_rss_expands fx maxUrls queue i st item
      hget htype
    exact ⟨hc, hm⟩

/-- The run state after five completed URLs. -/
def capState5 : RunState := { initState with processed := 5 }

/-- Witness for C7 at concrete inputs: at the cap, the next non-rss entry
only gets dequeued before the loop stops, and the final success count of
a capped run stays at the cap. -/
theorem cap_enforcement_witness :
    loopStep okLoopFx (some 5) goodQueue20 7 capState5 =
      { queue := goodQueue20, state := capState5,
        events := [LoopEvent.dequeue 7 "https://site.test/page/7"],
        control := StepControl.stop } ∧
    (runLoop okLoopFx (some 5) 30 goodQueue20 0 initState).1.processed ≤ 5 := by
  constructor
  · exact cap_enforcement.2.2.1 okLoopFx 5 goodQueue20 7 capState5
      (mkEntry "https://site.test/page/7") (by decide) (by decide)
      (by decide)
  · exact cap_enforcement.2.1 okLoopFx 5 30 goodQueue20 0 initState
      (by decide)

/-! ## C8 — the per-entry politeness delay -/

/-- A two-entry queue whose URLs are both blocked. -/
def blockedQueue : List SourceItem :=
  [mkEntry "https://site.test/login", mkEntry "https://site.test/signup"]

/-- Counterexample to C8 as stated: the blocked / non-html skip path of
the source has no `await sleep(delay)`, so after that Skipped terminal
transition the next entry is dequeued with no delay in between. -/
theorem delay_claim_counterexample :
    delayObserved false
      (runLoop okLoopFx none 5 blockedQueue 0 initState).2 = false ∧
    (runLoop okLoopFx none 5 blockedQueue 0 initState).2 =
      [LoopEvent.dequeue 0 "https://site.test/login",
       LoopEvent.terminal 0 TerminalKind.skippedBlocked,
       LoopEvent.dequeue 1 "https://site.test/signup",
       LoopEvent.terminal 1 TerminalKind.skippedBlocked] := by
  refine ⟨by decide, by decide⟩

/-- A sleep found before any dequeue stays before the next dequeue under
any extension of the trace. -/
theorem sleepBefore_of_hasSleep (i : Nat) :
    ∀ (xs ys : List LoopEvent), hasSleepBeforeDequeue i xs = true →
      sleepBeforeNextDequeue i (xs ++ ys) = true := by
  intro xs
  induction xs with
  | nil => intro ys h; cases h
  | cons e rest ih =>
    intro ys h
    simp only [hasSleepBeforeDequeue] at h
    simp only [List.cons_append, sleepBeforeNextDequeue, List.append_eq]
    split_ifs at h ⊢ with hd hs
    · rfl
    · exact ih ys h

/-- The strict per-block delay contract implies the scanning one. -/
theorem delayObserved_of_strong (excl : Bool) :
    ∀ l, delayObservedStrong excl l = true → delayObserved excl l = true := by
  intro l
  induction l with
  | nil => intro _; rfl
  | cons e rest ih =>
    intro h
    simp only [delayObservedStrong, Bool.and_eq_true] at h
    simp only [delayObserved, Bool.and_eq_true]
    refine ⟨?_, ih h.2⟩
    cases e with
    | dequeue i u => rfl
    | sleepAfter i s => rfl
    | pipe i e => rfl
    | terminal i k =>
      rcases (Bool.or_eq_true _ _).mp h.1 with he | hh
      · exact (Bool.or_eq_true _ _).mpr (Or.inl he)
      · refine (Bool.or_eq_true _ _).mpr (Or.inr ?_)
        have hs := sleepBefore_of_hasSleep i rest [] hh
        rwa [List.append_nil] at hs

/-- Blocks satisfying the strict contract compose with any tail already
satisfying the scanning contract. -/
theorem delayObserved_append (excl : Bool) :
    ∀ (xs ys : List LoopEvent), delayObservedStrong excl xs = true →
      delayObserved excl ys = true →
      delayObserved excl (xs ++ ys) = true := by
  intro xs
  induction xs with
  | nil => intro ys _ hy; exact hy
  | cons e rest ih =>
    intro ys hx hy
    simp only [delayObservedStrong, Bool.and_eq_true] at hx
    simp only [List.cons_append, delayObserved, Bool.and_eq_true]
    refine ⟨?_, ih ys hx.2 hy⟩
    cases e with
    | dequeue i u => rfl
    | sleepAfter i s => rfl
    | pipe i e => rfl
    | terminal i k =>
      rcases (Bool.or_eq_true _ _).mp hx.1 with he | hh
      · exact (Bool.or_eq_true _ _).mpr (Or.inl he)
      · exact (Bool.or_eq_true _ _).mpr
          (Or.inr (sleepBefore_of_hasSleep i rest ys hh))

/-- Nested pipeline events are transparent to the strict delay check. -/
theorem delayObservedStrong_skips_pipe (excl : Bool) (i : Nat) :
    ∀ (l : List Event) (rest : List LoopEvent),
      delayObservedStrong excl (l.map (LoopEvent.pipe i) ++ rest) =
        delayObservedStrong excl rest := by
  intro l
  induction l with
  | nil => intro rest; rfl
  | cons e es ih =>
    intro rest
    simp only [List.map_cons, List.cons_append, delayObservedStrong,
      List.append_eq]
    rw [ih]
    simp

/-- A full per-entry block — dequeue, nested pipeline events, terminal,
sleep — satisfies the strict delay contract. -/
theorem delayObservedStrong_full_block (excl : Bool) (i : Nat) (u : String)
    (l : List Event) (k : TerminalKind) (d : Nat) :
    delayObservedStrong excl
      ([LoopEvent.dequeue i u] ++ l.map (LoopEvent.pipe i) ++
        [LoopEvent.terminal i k, LoopEvent.sleepAfter i d]) = true := by
  rw [List.append_assoc, List.singleton_append]
  simp only [delayObservedStrong]
  rw [delayObservedStrong_skips_pipe]
  simp [delayObservedStrong, hasSleepBeforeDequeue, isDequeueEv,
    sleepForEntry, exemptTerminal]

/-- Every block emitted by one loop iteration satisfies the strict delay
contract (with the blocked / non-html skip exempted). -/
theorem loopStep_events_strong (fx : LoopEffects) (maxUrls : Option Nat)
    (queue : List SourceItem) (i : Nat) (st : RunState) :
    delayObservedStrong true (loopStep fx maxUrls queue i st).events = true := by
  unfold loopStep
  cases hget : queue.get? i with
  | none => rfl
  | some item =>
    dsimp only
    split_ifs with h1 h2 h3 h4
    · simp [delayObservedStrong, hasSleepBeforeDequeue, isDequeueEv,
        sleepForEntry, exemptTerminal]
    · simp [delayObservedStrong, isDequeueEv]
    · simp [delayObservedStrong, hasSleepBeforeDequeue, isDequeueEv,
        sleepForEntry, exemptTerminal]
    · simp [delayObservedStrong, isDequeueEv, exemptTerminal]
    · split <;>
        exact delayObservedStrong_full_block true i item.url _ _ _

/-- C8 (amended): after every terminal transition of a queue entry —
Done, Skipped or Failed — except the blocked / non-HTML skip (which
contacts no remote host and sleeps nothing in the source), the entry's
configured delay is observed before the next entry is dequeued, over
every run of the orchestrator loop. -/
theorem politeness_delay :
    ∀ (fx : LoopEffects) (maxUrls : Option Nat) (fuel : Nat)
      (queue : List SourceItem) (i : Nat) (st : RunState),
      delayObserved true (runLoop fx maxUrls fuel queue i st).2 = true := by
  intro fx maxUrls fuel
  induction fuel with
  | zero => intro queue i st; rfl
  | succ f ih =>
    intro queue i st
    simp only [runLoop]
    cases hctl : (loopStep fx maxUrls queue i st).control with
    | stop =>
      dsimp only
      exact delayObserved_of_strong true _
        (loopStep_events_strong fx maxUrls queue i st)
    | next =>
      dsimp only
      exact delayObserved_append true _ _
        (loopStep_events_strong fx maxUrls queue i st) (ih _ _ _)
